import Mathlib

/-!
Verification of the Query Execution Engine of the llm-api-hack repository.

The engine drives a browser against a third-party chat surface and polls the
rendered page until the answer text converges.  This file gives a shallow
embedding of the engine's core logic, translated from `src/server.js`
(Perplexity engine), `src/gemini-server.js` (Gemini engine) and the combined
service in `src/unnamed/part_000`:

* the convergence-detector polling loop of `queryPerplexity` / `queryGemini`
  (sampling, delta emission, stability counting, early/forced stable exits,
  the deadline fallback, and the propagation of a failed sample);
* the echo guard of the Gemini `extractAnswer` and the guard-free answer-text
  assembly of the Perplexity `extractAnswer`;
* `submitQuery`'s scan over candidate input elements;
* the serialized request queue (`enqueue` / `processQueue`);
* the `try`/`finally` resource lifecycle of one execution.

JavaScript strings are modelled as Lean `String`s; JS string indices
(`slice`, `length`) are modelled per character, which agrees with the source
for the ASCII texts considered here.  Wall-clock polling is modelled by the
finite list of samples the loop takes before its deadline; an entry `none`
in the sample list stands for a poll on which `extractAnswer` threw.
-/

namespace LlmApiHack

/-- A source citation as assembled by `extractAnswer` in `server.js`
(lines 201-226): a title and a url. -/
structure Citation where
  title : String
  url : String
deriving DecidableEq

/-- The value produced by one call to `extractAnswer` — one observation
sample.  `answerText` is the extracted answer text, `sources` the citations
collected with it (the Gemini `extractAnswer` collects none, so for that
engine the field is constantly `[]`), `isLoading` the busy signal, and
`modelResponseExists` the Gemini-only marker that a `model-response`
element is present (`server.js` extractions carry no such field; the
Perplexity configuration below never reads it). -/
structure Extraction where
  answerText : String
  sources : List Citation
  isLoading : Bool
  modelResponseExists : Bool
deriving DecidableEq

/-- JS `text.slice(n)`: the suffix of `t` starting at index `n`. -/
def sliceFrom (t : String) (n : Nat) : String := String.mk (t.data.drop n)

/-- The local state of the polling loop in `queryPerplexity`
(`server.js` lines 270-273) and `queryGemini` (`gemini-server.js` lines
438-441): `lastText`, `stableCount`, `lastChunkedLength`, plus `chunks`,
the list of deltas passed to `onChunk` so far, in emission order. -/
structure PollState where
  lastText : String
  stableCount : Nat
  lastChunkedLength : Nat
  chunks : List String
deriving DecidableEq

/-- The loop's state at entry: `lastText = ''`, `stableCount = 0`,
`lastChunkedLength = 0`, nothing emitted. -/
def initS : PollState :=
  { lastText := "", stableCount := 0, lastChunkedLength := 0, chunks := [] }

/-- The engine-specific constants of the polling loop.
`guardLen`: a sample is processed only when its text is strictly longer than
this (`server.js` line 280 tests truthiness, i.e. length `> 0`;
`gemini-server.js` line 447 tests `length > 10`).
`lowThr`: the early-stable threshold, which for Gemini depends on the
sample (`doneThreshold = extraction.modelResponseExists ? 2 : 5`,
`gemini-server.js` line 459); `highThr`: the forced-stable threshold
(8 for Perplexity, 10 for Gemini).
`fallbackOnModelResponse`: whether the loop has the Gemini-only branch
returning `lastText` when `model-response` exists but extraction found
nothing (`gemini-server.js` lines 468-472).
`keepSources`: whether a stable exit returns the extraction's sources
(`server.js` lines 293-296) or no sources (`gemini-server.js` line 462). -/
structure Config where
  guardLen : Nat
  lowThr : Extraction → Nat
  highThr : Nat
  fallbackOnModelResponse : Bool
  keepSources : Bool

/-- The Perplexity engine's constants (`server.js` lines 277-305). -/
def pplxCfg : Config :=
  { guardLen := 0, lowThr := fun _ => 3, highThr := 8,
    fallbackOnModelResponse := false, keepSources := true }

/-- The Gemini engine's constants (`gemini-server.js` lines 444-475). -/
def geminiCfg : Config :=
  { guardLen := 10,
    lowThr := fun e => if e.modelResponseExists then 2 else 5,
    highThr := 10,
    fallbackOnModelResponse := true, keepSources := false }

/-- The terminal value a successful execution resolves with:
`{ answer, sources }`. -/
structure Ans where
  answer : String
  sources : List Citation
deriving DecidableEq

/-- The chunk-emission block of the loop body (`server.js` lines 282-286,
`gemini-server.js` lines 450-454): when an `onChunk` callback is present and
the text grew past `lastChunkedLength`, the suffix `text.slice(lastChunkedLength)`
is emitted and `lastChunkedLength` becomes the new length.  The block touches
neither `lastText` nor `stableCount`. -/
def chunkUpd (hasOnChunk : Bool) (s : PollState) (e : Extraction) : PollState :=
  if hasOnChunk = true ∧ s.lastChunkedLength < e.answerText.length then
    { s with chunks := s.chunks ++ [sliceFrom e.answerText s.lastChunkedLength],
             lastChunkedLength := e.answerText.length }
  else s

/-- One iteration of the polling loop body, translated from `server.js`
lines 278-302 and `gemini-server.js` lines 445-472.  `hasOnChunk` models
whether an `onChunk` callback was supplied.  Returns `Sum.inl` with the
next state when the loop continues, `Sum.inr` with the exit state and the
returned answer when the iteration returns.  The stability condition reads
`s.stableCount + 1` because the source increments `stableCount` before
testing it, and the chunk block leaves `stableCount` untouched. -/
def step (cfg : Config) (hasOnChunk : Bool) (s : PollState) (e : Extraction) :
    PollState ⊕ (PollState × Ans) :=
  if cfg.guardLen < e.answerText.length then
    if e.answerText = s.lastText then
      if (e.isLoading = false ∧ cfg.lowThr e ≤ s.stableCount + 1) ∨
         cfg.highThr ≤ s.stableCount + 1 then
        Sum.inr ({ (chunkUpd hasOnChunk s e) with stableCount := s.stableCount + 1 },
                 { answer := e.answerText,
                   sources := if cfg.keepSources then e.sources else [] })
      else
        Sum.inl { (chunkUpd hasOnChunk s e) with
                  stableCount := s.stableCount + 1, lastText := e.answerText }
    else
      Sum.inl { (chunkUpd hasOnChunk s e) with
                stableCount := 0, lastText := e.answerText }
  else if cfg.fallbackOnModelResponse = true ∧ e.modelResponseExists = true ∧
          s.lastText ≠ "" then
    Sum.inr (s, { answer := s.lastText, sources := [] })
  else Sum.inl s

/-- How a run of the polling loop on a finite sample sequence ends:
still polling when the samples ran out (`cont`), returned an answer
(`done`), or aborted because a sample threw (`threw`).  Each constructor
carries the loop state at that point. -/
inductive LoopRes where
  | cont (s : PollState)
  | done (s : PollState) (a : Ans)
  | threw (s : PollState)
deriving DecidableEq

/-- Run the polling loop over a sample sequence.  A `none` sample is a poll
on which `extractAnswer` threw: the loop body has no handler for it
(`server.js` line 278, `gemini-server.js` line 445 sit directly inside the
outer `try` whose only clause is `finally`), so the run aborts there. -/
def runLoop (cfg : Config) (hasOnChunk : Bool) :
    PollState → List (Option Extraction) → LoopRes
  | s, [] => LoopRes.cont s
  | s, none :: _ => LoopRes.threw s
  | s, some e :: rest =>
    match step cfg hasOnChunk s e with
    | Sum.inl s' => runLoop cfg hasOnChunk s' rest
    | Sum.inr (s', a) => LoopRes.done s' a

/-- The distinct ways one execution of `queryPerplexity` / `queryGemini`
settles: a stable answer, the deadline fallback returning the retained text
with no citations (`server.js` lines 308-311), the `Timeout: no answer
received` error, the `Could not find input field` error thrown when
`submitQuery` returned false, an exception from a poll, and an exception
from the initial `page.goto`. -/
inductive Outcome where
  | stable (answer : String) (sources : List Citation)
  | timeoutText (answer : String) (sources : List Citation)
  | noAnswer
  | submitFailed
  | pollThrew
  | navThrew
deriving DecidableEq

/-- One execution from the submit check onward, returning its outcome
together with the deltas emitted to `onChunk`: `if (!submitted) throw`
(`server.js` lines 262-265), then the polling loop, then the deadline
fallback (`server.js` lines 307-313, `gemini-server.js` lines 477-482). -/
def runQueryFull (cfg : Config) (submitted : Bool) (hasOnChunk : Bool)
    (samples : List (Option Extraction)) : Outcome × List String :=
  if submitted = false then (Outcome.submitFailed, [])
  else
    match runLoop cfg hasOnChunk initS samples with
    | LoopRes.done s a => (Outcome.stable a.answer a.sources, s.chunks)
    | LoopRes.threw s => (Outcome.pollThrew, s.chunks)
    | LoopRes.cont s =>
      if s.lastText ≠ "" then (Outcome.timeoutText s.lastText [], s.chunks)
      else (Outcome.noAnswer, s.chunks)

/-- Whether a loop run is still polling. -/
def isCont : LoopRes → Bool
  | LoopRes.cont _ => true
  | _ => false

/-- A sample with the given text and busy signal, no citations, no
`model-response` marker — the shape the Perplexity engine produces. -/
def mkE (t : String) (load : Bool) : Extraction :=
  { answerText := t, sources := [], isLoading := load, modelResponseExists := false }

/-- Whether an outcome is a stable (converged) success. -/
def isStable : Outcome → Bool
  | Outcome.stable _ _ => true
  | _ => false

/-- The answer text a terminal outcome delivers, when it delivers one. -/
def outcomeText : Outcome → Option String
  | Outcome.stable a _ => some a
  | Outcome.timeoutText a _ => some a
  | _ => none

/-- The string `s` is an initial segment of `t` (JS: `t.slice(0, s.length)
=== s`). -/
def strExt (s t : String) : Prop := t.data.take s.data.length = s.data

instance (s t : String) : Decidable (strExt s t) :=
  inferInstanceAs (Decidable (_ = _))

/-- The text the loop retains across a sample sequence: the text of the last
sample that passed the engine's length guard, or `""` when none did. -/
def lastGood (cfg : Config) (l : List Extraction) : String :=
  l.foldl (fun acc e =>
    if cfg.guardLen < e.answerText.length then e.answerText else acc) ""

/-! Concrete sample sequences used as counterexamples and witnesses. -/

/-- The text of the first, shorter plateau of the claim-C1 counterexample. -/
def c1A : String := "first stable answer!!"

/-- The text of the final, longer plateau of the claim-C1 counterexample. -/
def c1B : String := c1A ++ " now it is complete."

/-- Claim-C1 counterexample samples: the shorter text four times with the
busy signal off, then the longer text on nine consecutive polls — lengths
non-decreasing, final text repeated well past the forced-stable threshold. -/
def c1samples : List (Option Extraction) :=
  (List.replicate 4 (mkE c1A false) ++ List.replicate 9 (mkE c1B false)).map some

/-- The repeated text of the claim-C2 counterexample. -/
def c2T : String := "the converged answer."

/-- Claim-C2 counterexample samples: one text, busy on its first occurrence
and first three repeats, busy off on the fourth repeat. -/
def c2samples : List (Option Extraction) :=
  (List.replicate 4 (mkE c2T true) ++ [mkE c2T false]).map some

/-- Claim-C3 counterexample samples: the text changes from `"hello"` to a
longer, unrelated text which then stabilizes. -/
def c3samples : List (Option Extraction) :=
  (mkE "hello" true :: List.replicate 4 (mkE "worldfull!" false)).map some

/-- Claim-C5 counterexample samples: the first poll throws, every later
poll reports one stable text with the busy signal off. -/
def c5samples : List (Option Extraction) :=
  none :: (List.replicate 9 (mkE "a stable answer here" false)).map some

/-- Claim-C6 counterexample sample (Gemini engine): a single non-empty text
of five characters, below the Gemini length guard. -/
def c6samples : List (Option Extraction) := [some (mkE "short" false)]

/-! The echo guard of the Gemini `extractAnswer` (`gemini-server.js` lines
311-324) and the guard-free text assembly of the Perplexity `extractAnswer`
(`server.js` lines 164-198). -/

/-- JS `s.replace(/\s+/g, ' ')`: each maximal run of whitespace becomes a
single space.  The flag records whether the previous character was part of
a whitespace run already replaced.  `\s` is modelled by `Char.isWhitespace`,
which covers the whitespace the texts at hand contain. -/
def collapseWs : Bool → List Char → List Char
  | _, [] => []
  | inWs, c :: cs =>
    if c.isWhitespace then
      if inWs then collapseWs true cs else ' ' :: collapseWs true cs
    else c :: collapseWs false cs

/-- JS `s.trim()`: strip leading and trailing whitespace. -/
def trimChars (l : List Char) : List Char :=
  ((l.dropWhile Char.isWhitespace).reverse.dropWhile Char.isWhitespace).reverse

/-- JS `s.toLowerCase()`, per character. -/
def lowerChars (l : List Char) : List Char := l.map Char.toLower

/-- The normalizer `norm` of the echo guard (`gemini-server.js` line 313):
`s.replace(/\s+/g, ' ').trim().toLowerCase()`. -/
def normWs (s : String) : String :=
  String.mk (lowerChars (trimChars (collapseWs false s.data)))

/-- JS `t.slice(0, n)`: the first `n` characters of `t`. -/
def takeChars (t : String) (n : Nat) : String := String.mk (t.data.take n)

/-- JS `normAnswer.replace(/^you said\s*/i, '')` as applied on line 320 of
`gemini-server.js`: the argument is already lowercased by `norm`, so the
case-insensitive flag is moot; strip a leading `"you said"` and any
whitespace after it.  (`strExt p s` is JS `s.startsWith(p)`.) -/
def stripLeadingYouSaid (s : String) : String :=
  if strExt "you said" s then
    String.mk ((s.data.drop 8).dropWhile Char.isWhitespace)
  else s

/-- The echo guard of the Gemini `extractAnswer` (`gemini-server.js` lines
311-324): when both the query and the extracted text are non-empty and the
normalized text equals the normalized query, starts with its first 120
characters, starts with `"you said "` plus its first 100 characters, or —
after stripping a leading `"you said"` — starts with its first 120
characters, the text is discarded (replaced by `""`).  The source binds the
two normalized strings to consts `normAnswer` and `normQuery`; they are
inlined here. -/
def echoGuard (inputQuery answerText : String) : String :=
  if inputQuery ≠ "" ∧ answerText ≠ "" then
    if normWs answerText = normWs inputQuery
       ∨ strExt (takeChars (normWs inputQuery) 120) (normWs answerText)
       ∨ strExt ("you said " ++ takeChars (normWs inputQuery) 100)
           (normWs answerText)
       ∨ strExt (takeChars (normWs inputQuery) 120)
           (stripLeadingYouSaid (normWs answerText))
    then "" else answerText
  else answerText

/-- The answer-text assembly of the Perplexity `extractAnswer` (`server.js`
lines 164-198), with the rendered page abstracted as the cleaned text of
each matched element: prose texts longer than 5 characters are joined with
a blank line; when the result is shorter than 30 characters, every fallback
text longer than the current answer replaces it.  The query is never
consulted: this `extractAnswer` has no echo guard (it does not even receive
the query). -/
def perplexityAnswerText (proseTexts fallbackTexts : List String) : String :=
  let paragraphs := proseTexts.filter (fun t => 5 < t.length)
  let answerText := String.intercalate "\n\n" paragraphs
  if answerText.length < 30 then
    fallbackTexts.foldl (fun acc t => if acc.length < t.length then t else acc)
      answerText
  else answerText

/-! The candidate scan of `submitQuery` (`server.js` lines 104-162). -/

/-- The style and geometry of one candidate input element, as read by the
`isVisible` check of `submitQuery` (`server.js` lines 125-133). -/
structure Target where
  displayNone : Bool
  visibilityHidden : Bool
  width : Nat
  height : Nat
deriving DecidableEq

/-- The `isVisible` check (`server.js` lines 129-132): the element's computed
display is not `none`, its visibility is not `hidden`, and its bounding
rectangle has positive height and width. -/
def usable (t : Target) : Bool :=
  !t.displayNone && !t.visibilityHidden &&
    decide (0 < t.height) && decide (0 < t.width)

/-- `submitQuery` (`server.js` lines 104-162): the elements matched by each
selector are scanned in order; the first usable element receives the query
and the function returns true; with no usable element anywhere it returns
false.  A per-selector exception is caught and the scan continues, so a
throwing selector behaves like one with no usable elements. -/
def submitQuery (cands : List (List Target)) : Bool :=
  cands.any (fun els => els.any usable)

/-! The serialized request queue (`server.js` lines 322-345,
`gemini-server.js` lines 491-514, `src/unnamed/part_000` lines 448-465). -/

/-- One queued request: an identifier and whether its task rejects. -/
structure Job where
  id : Nat
  fails : Bool
deriving DecidableEq

/-- An event observable on the queue: a job's task function starts running,
or it settles (`ok = true` for `resolve`, `false` for `reject`). -/
inductive QEv where
  | start (id : Nat)
  | settle (id : Nat) (ok : Bool)
deriving DecidableEq

/-- The queue's state: the pending `requestQueue` array, the `processing`
flag, the job whose task is currently executing (implicit in the source's
control flow: the job shifted by the active `processQueue` call), and the
trace of events so far. -/
structure QState where
  requestQueue : List Job
  processing : Bool
  current : Option Job
  trace : List QEv
deriving DecidableEq

/-- The queue before any request. -/
def initQ : QState := { requestQueue := [], processing := false, current := none, trace := [] }

/-- The entry of `processQueue` (`server.js` lines 329-333) up to the point
where the task starts: return unchanged when `processing` is set or the
queue is empty; otherwise shift the head job, set `processing`, and start
its task. -/
def processQueueStart (s : QState) : QState :=
  if s.processing = true ∨ s.requestQueue = [] then s
  else
    match s.requestQueue with
    | [] => s
    | j :: rest =>
      { requestQueue := rest, processing := true, current := some j,
        trace := s.trace ++ [QEv.start j.id] }

/-- `enqueue` (`server.js` lines 322-327): push the job, then call
`processQueue`. -/
def enqueueJob (s : QState) (j : Job) : QState :=
  processQueueStart { s with requestQueue := s.requestQueue ++ [j] }

/-- The settlement of the running task (`server.js` lines 334-344):
`resolve`/`reject` fires (the settle event), then the `finally` block clears
`processing` and calls `processQueue` again when the queue is non-empty.
Without a running task nothing happens. -/
def settleJob (s : QState) : QState :=
  match s.current with
  | none => s
  | some j =>
    processQueueStart
      { s with processing := false, current := none,
               trace := s.trace ++ [QEv.settle j.id (!j.fails)] }

/-- An externally triggered queue operation: a new request arrives, or the
running task settles. -/
inductive QOp where
  | enq (j : Job)
  | settle
deriving DecidableEq

/-- Run a sequence of queue operations from the initial state. -/
def runOps (ops : List QOp) : QState :=
  ops.foldl (fun s op =>
    match op with
    | QOp.enq j => enqueueJob s j
    | QOp.settle => settleJob s) initQ

/-- The ids of the jobs whose tasks have started, in start order. -/
def startedIds (t : List QEv) : List Nat :=
  t.filterMap (fun e =>
    match e with
    | QEv.start i => some i
    | _ => none)

/-- The ids of the jobs enqueued by a sequence of operations, in arrival
order. -/
def enqIds (ops : List QOp) : List Nat :=
  ops.filterMap (fun op =>
    match op with
    | QOp.enq j => some j.id
    | _ => none)

/-- The number of start events in a trace. -/
def startCount (t : List QEv) : Nat :=
  t.countP (fun e =>
    match e with
    | QEv.start _ => true
    | _ => false)

/-- The number of settle events in a trace. -/
def settleCount (t : List QEv) : Nat :=
  t.countP (fun e =>
    match e with
    | QEv.settle _ _ => true
    | _ => false)

/-- `p` is an initial segment of `l`. -/
def isInit (p l : List QEv) : Prop := ∃ q, p ++ q = l

/-- A well-nested trace: an alternation of matching start/settle pairs,
followed by at most one open start event, whose job is the `current` one. -/
inductive OkTrace : List QEv → Option Job → Prop
  | nil : OkTrace [] none
  | start (t : List QEv) (j : Job) :
      OkTrace t none → OkTrace (t ++ [QEv.start j.id]) (some j)
  | finish (t : List QEv) (j : Job) (ok : Bool) :
      OkTrace t (some j) → OkTrace (t ++ [QEv.settle j.id ok]) none

/-- The queue invariant: the trace is well-nested against the running job,
`processing` tracks whether a task is running, the queue is empty whenever
the worker is idle, and the started ids followed by the queued ids are
exactly the enqueued ids, in order. -/
def QInv (s : QState) (enq : List Nat) : Prop :=
  OkTrace s.trace s.current ∧
  s.processing = s.current.isSome ∧
  (s.processing = false → s.requestQueue = []) ∧
  startedIds s.trace ++ s.requestQueue.map Job.id = enq

/-! The resource lifecycle of one execution (`server.js` lines 248-318,
`gemini-server.js` lines 345-487). -/

/-- An event in the lifecycle of one execution's Observation Source:
`acquire` is `createPage()`, `emit` an `onChunk` delta, `release` the
`finally` block (`page.close()` / `context.close()`, each with a swallowed
close error, so the release attempt itself cannot throw), and `settle` the
settlement of the execution's promise with the given outcome. -/
inductive SlotEvent where
  | acquire
  | emit (delta : String)
  | release
  | settle (o : Outcome)
deriving DecidableEq

/-- Whether a lifecycle event is the release of the Observation Source. -/
def isRelease : SlotEvent → Bool
  | SlotEvent.release => true
  | _ => false

/-- Whether a lifecycle event is the settlement of the execution's promise. -/
def isSettle : SlotEvent → Bool
  | SlotEvent.settle _ => true
  | _ => false

/-- The event trace of one execution of `queryPerplexity` / `queryGemini`:
`createPage()` first; then the `try` body — `page.goto` (which can throw:
`navOk = false`), the submit check and the polling loop (`runQueryFull`),
emitting each delta; then, on every path out of the body, the `finally`
block releases the source; finally the promise settles with the body's
outcome.  The unconditional position of `release` embeds the semantics of
`try`/`finally`. -/
def queryEvents (cfg : Config) (navOk submitted : Bool)
    (samples : List (Option Extraction)) : List SlotEvent :=
  let body : Outcome × List String :=
    if navOk = false then (Outcome.navThrew, [])
    else runQueryFull cfg submitted true samples
  SlotEvent.acquire ::
    (body.2.map SlotEvent.emit ++ [SlotEvent.release, SlotEvent.settle body.1])

/-! Basic lemmas about the polling loop. -/

theorem runLoop_cons (cfg : Config) (hc : Bool) (s : PollState) (e : Extraction)
    (rest : List (Option Extraction)) :
    runLoop cfg hc s (some e :: rest) =
      match step cfg hc s e with
      | Sum.inl s' => runLoop cfg hc s' rest
      | Sum.inr (s', a) => LoopRes.done s' a := rfl

theorem runLoop_append (cfg : Config) (hc : Bool) (s : PollState)
    (l1 l2 : List (Option Extraction)) :
    runLoop cfg hc s (l1 ++ l2) =
      match runLoop cfg hc s l1 with
      | LoopRes.cont s' => runLoop cfg hc s' l2
      | r => r := by
  induction l1 generalizing s with
  | nil => rfl
  | cons o l ih =>
    cases o with
    | none => rfl
    | some e =>
      rw [List.cons_append, runLoop_cons, runLoop_cons]
      cases step cfg hc s e with
      | inl s' => exact ih s'
      | inr p => rfl

theorem chunkUpd_stableCount (hc : Bool) (s : PollState) (e : Extraction) :
    (chunkUpd hc s e).stableCount = s.stableCount := by
  unfold chunkUpd; split <;> rfl

theorem chunkUpd_lastText (hc : Bool) (s : PollState) (e : Extraction) :
    (chunkUpd hc s e).lastText = s.lastText := by
  unfold chunkUpd; split <;> rfl

theorem chunkUpd_lcl_le (hc : Bool) (s : PollState) (e : Extraction) :
    s.lastChunkedLength ≤ (chunkUpd hc s e).lastChunkedLength := by
  unfold chunkUpd; split
  · next h => exact Nat.le_of_lt h.2
  · exact Nat.le_refl _

theorem step_guard_reset (cfg : Config) (hc : Bool) (s : PollState) (e : Extraction)
    (hg : cfg.guardLen < e.answerText.length) (hne : e.answerText ≠ s.lastText) :
    step cfg hc s e =
      Sum.inl { (chunkUpd hc s e) with
                stableCount := 0, lastText := e.answerText } := by
  unfold step; rw [if_pos hg, if_neg hne]

theorem step_stable_exit (cfg : Config) (hc : Bool) (s : PollState) (e : Extraction)
    (hg : cfg.guardLen < e.answerText.length) (heq : e.answerText = s.lastText)
    (hcond : (e.isLoading = false ∧ cfg.lowThr e ≤ s.stableCount + 1) ∨
             cfg.highThr ≤ s.stableCount + 1) :
    step cfg hc s e =
      Sum.inr ({ (chunkUpd hc s e) with stableCount := s.stableCount + 1 },
               { answer := e.answerText,
                 sources := if cfg.keepSources then e.sources else [] }) := by
  unfold step; rw [if_pos hg, if_pos heq, if_pos hcond]

theorem step_stable_cont (cfg : Config) (hc : Bool) (s : PollState) (e : Extraction)
    (hg : cfg.guardLen < e.answerText.length) (heq : e.answerText = s.lastText)
    (hcond : ¬ ((e.isLoading = false ∧ cfg.lowThr e ≤ s.stableCount + 1) ∨
                cfg.highThr ≤ s.stableCount + 1)) :
    step cfg hc s e =
      Sum.inl { (chunkUpd hc s e) with
                stableCount := s.stableCount + 1, lastText := e.answerText } := by
  unfold step; rw [if_pos hg, if_pos heq, if_neg hcond]

theorem step_skip (cfg : Config) (hc : Bool) (s : PollState) (e : Extraction)
    (hg : ¬ cfg.guardLen < e.answerText.length)
    (hfb : ¬ (cfg.fallbackOnModelResponse = true ∧ e.modelResponseExists = true ∧
              s.lastText ≠ "")) :
    step cfg hc s e = Sum.inl s := by
  unfold step; rw [if_neg hg, if_neg hfb]

theorem step_fallback_exit (cfg : Config) (hc : Bool) (s : PollState) (e : Extraction)
    (hg : ¬ cfg.guardLen < e.answerText.length)
    (hfb : cfg.fallbackOnModelResponse = true ∧ e.modelResponseExists = true ∧
           s.lastText ≠ "") :
    step cfg hc s e = Sum.inr (s, { answer := s.lastText, sources := [] }) := by
  unfold step; rw [if_neg hg, if_pos hfb]

theorem ne_empty_of_length_pos {s : String} (h : 0 < s.length) : s ≠ "" := by
  intro he
  subst he
  exact (by decide : ¬ (0 < "".length)) h

theorem getLastD_cons {α : Type} (a : α) (t : List α) (d : α) :
    ((a :: t).getLast?).getD d = (t.getLast?).getD a := by
  cases t with
  | nil => rfl
  | cons b t => rw [List.getLast?_cons_cons]; rfl

/-- Running the loop over samples that all pass the guard and whose texts
differ from one poll to the next (and from the entry `lastText`) never
returns: `stableCount` is reset at every poll and `lastText` tracks the
latest text. -/
theorem runLoop_distinct (cfg : Config) (hc : Bool) :
    ∀ (l : List Extraction) (s : PollState),
      (∀ e ∈ l, cfg.guardLen < e.answerText.length) →
      List.Chain' (fun a b => a.answerText ≠ b.answerText) l →
      (∀ e, l.head? = some e → e.answerText ≠ s.lastText) →
      s.stableCount = 0 →
      ∃ s' : PollState,
        runLoop cfg hc s (l.map some) = LoopRes.cont s' ∧
        s'.stableCount = 0 ∧
        s'.lastText = ((l.map fun e => e.answerText).getLast?).getD s.lastText := by
  intro l
  induction l with
  | nil => intro s _ _ _ hsc; exact ⟨s, rfl, hsc, rfl⟩
  | cons e l ih =>
    intro s hg hch hhd hsc
    have hge : cfg.guardLen < e.answerText.length := hg e (List.mem_cons_self e l)
    have hne : e.answerText ≠ s.lastText := hhd e rfl
    rw [List.map_cons, runLoop_cons, step_guard_reset cfg hc s e hge hne]
    have hhd' : ∀ x, l.head? = some x →
        x.answerText ≠ ({ (chunkUpd hc s e) with
          stableCount := 0, lastText := e.answerText } : PollState).lastText := by
      intro x hx
      have hrel : e.answerText ≠ x.answerText := by
        cases l with
        | nil => cases hx
        | cons y t =>
          cases hx
          exact (List.chain'_cons.mp hch).1
      exact fun h => hrel (h ▸ rfl)
    obtain ⟨s', hrun, hsc', hlast⟩ :=
      ih { (chunkUpd hc s e) with stableCount := 0, lastText := e.answerText }
        (fun x hx => hg x (List.mem_cons_of_mem e hx)) hch.tail hhd' rfl
    refine ⟨s', hrun, hsc', ?_⟩
    rw [hlast, List.map_cons, getLastD_cons]

/-- Running the loop from a state already holding the plateau text `T`:
once enough identical samples remain to push `stableCount` to the forced
threshold, the loop returns `T`, whatever the busy signals are. -/
theorem runLoop_all_eq_done (cfg : Config) (hc : Bool) (T : String)
    (hT : cfg.guardLen < T.length) :
    ∀ (l : List Extraction) (s : PollState),
      (∀ e ∈ l, e.answerText = T) →
      s.lastText = T →
      s.stableCount < cfg.highThr →
      cfg.highThr ≤ s.stableCount + l.length →
      ∃ (s' : PollState) (a : Ans),
        runLoop cfg hc s (l.map some) = LoopRes.done s' a ∧ a.answer = T := by
  intro l
  induction l with
  | nil =>
    intro s _ _ hlt hge
    simp only [List.length_nil, Nat.add_zero] at hge
    omega
  | cons e l ih =>
    intro s hall hlast hlt hge
    have heT : e.answerText = T := hall e (List.mem_cons_self e l)
    have hge' : cfg.guardLen < e.answerText.length := by rw [heT]; exact hT
    have heq : e.answerText = s.lastText := by rw [heT, hlast]
    by_cases hcond : (e.isLoading = false ∧ cfg.lowThr e ≤ s.stableCount + 1) ∨
        cfg.highThr ≤ s.stableCount + 1
    · rw [List.map_cons, runLoop_cons, step_stable_exit cfg hc s e hge' heq hcond]
      exact ⟨_, _, rfl, heT⟩
    · rw [List.map_cons, runLoop_cons, step_stable_cont cfg hc s e hge' heq hcond]
      apply ih
      · exact fun x hx => hall x (List.mem_cons_of_mem e hx)
      · exact heT
      · show s.stableCount + 1 < cfg.highThr
        have : ¬ cfg.highThr ≤ s.stableCount + 1 := fun h => hcond (Or.inr h)
        omega
      · show cfg.highThr ≤ s.stableCount + 1 + l.length
        simp only [List.length_cons] at hge
        omega

/-- From any state with `stableCount = 0`, a plateau of `highThr + 1`
identical guard-passing samples makes the loop return the plateau text. -/
theorem runLoop_plateau (cfg : Config) (hc : Bool) (T : String)
    (hT : cfg.guardLen < T.length) (hhigh : 0 < cfg.highThr)
    (l : List Extraction) (s : PollState)
    (hall : ∀ e ∈ l, e.answerText = T) (hsc : s.stableCount = 0)
    (hlen : cfg.highThr + 1 ≤ l.length) :
    ∃ (s' : PollState) (a : Ans),
      runLoop cfg hc s (l.map some) = LoopRes.done s' a ∧ a.answer = T := by
  by_cases hlast : s.lastText = T
  · exact runLoop_all_eq_done cfg hc T hT l s hall hlast (by omega) (by omega)
  · cases l with
    | nil => simp only [List.length_nil] at hlen; omega
    | cons e l =>
      have heT : e.answerText = T := hall e (List.mem_cons_self e l)
      have hne : e.answerText ≠ s.lastText := by
        rw [heT]; exact fun h => hlast h.symm
      rw [List.map_cons, runLoop_cons,
          step_guard_reset cfg hc s e (by rw [heT]; exact hT) hne]
      apply runLoop_all_eq_done cfg hc T hT l
      · exact fun x hx => hall x (List.mem_cons_of_mem e hx)
      · exact heT
      · show (0 : Nat) < cfg.highThr
        exact hhigh
      · show cfg.highThr ≤ 0 + l.length
        simp only [List.length_cons] at hlen
        omega

/-- Combined: a guard-passing, consecutively-changing initial segment
followed by a long enough plateau drives any engine to a stable exit with
the plateau text, regardless of the busy signals. -/
theorem forcedStable (cfg : Config) (hc : Bool)
    (pre plateau : List Extraction) (T : String)
    (hpre : ∀ e ∈ pre, cfg.guardLen < e.answerText.length)
    (hch : List.Chain' (fun a b => a.answerText ≠ b.answerText) pre)
    (hT : cfg.guardLen < T.length)
    (hall : ∀ e ∈ plateau, e.answerText = T)
    (hlen : cfg.highThr + 1 ≤ plateau.length) (hhigh : 0 < cfg.highThr) :
    isStable (runQueryFull cfg true hc ((pre ++ plateau).map some)).1 = true ∧
    outcomeText (runQueryFull cfg true hc ((pre ++ plateau).map some)).1 = some T := by
  have hhd : ∀ e, pre.head? = some e → e.answerText ≠ initS.lastText := by
    intro e he
    exact ne_empty_of_length_pos
      (Nat.lt_of_le_of_lt (Nat.zero_le _) (hpre e (List.mem_of_mem_head? he)))
  obtain ⟨s1, hrun1, hsc1, _⟩ := runLoop_distinct cfg hc pre initS hpre hch hhd rfl
  obtain ⟨s2, a, hrun2, hansT⟩ :=
    runLoop_plateau cfg hc T hT hhigh plateau s1 hall hsc1 hlen
  have hfull : runLoop cfg hc initS ((pre ++ plateau).map some) =
      LoopRes.done s2 a := by
    rw [List.map_append, runLoop_append, hrun1]
    exact hrun2
  rw [runQueryFull, if_neg (by simp), hfull]
  show isStable (Outcome.stable a.answer a.sources) = true ∧
       outcomeText (Outcome.stable a.answer a.sources) = some T
  rw [hansT]
  exact ⟨rfl, rfl⟩

/-- Claim C1, counterexample.  The sequence `c1samples` has non-decreasing
text lengths (21, then 41 characters) and its final text `c1B` repeats
verbatim on nine consecutive polls — more than `highThreshold = 8` — yet the
Perplexity detector, with the busy signal off, exits by the early-stable
rule on the fourth poll and returns the earlier text `c1A`, not `c1B`.  So
the detector does not return "that repeated text". -/
theorem claim1_cex :
    (runQueryFull pplxCfg true true c1samples).1 = Outcome.stable c1A [] ∧
    c1A ≠ c1B := by
  constructor
  · decide
  · decide

/-- Claim C1 (amended): for both engines, over any sample sequence whose
texts all pass the engine's length guard (non-empty for Perplexity, longer
than 10 characters for Gemini), whose text changes at every poll until a
final plateau, and whose plateau text then appears on more than
`highThreshold` consecutive polls (at least 9 for Perplexity, at least 11
for Gemini), the detector reaches the STABLE outcome and returns the
plateau text — regardless of the busy signal on every poll. -/
theorem claim1_forced_stable :
    (∀ (hc : Bool) (pre plateau : List Extraction) (T : String),
      (∀ e ∈ pre, 0 < e.answerText.length) →
      List.Chain' (fun a b => a.answerText ≠ b.answerText) pre →
      0 < T.length →
      (∀ e ∈ plateau, e.answerText = T) →
      9 ≤ plateau.length →
      isStable (runQueryFull pplxCfg true hc ((pre ++ plateau).map some)).1 = true ∧
      outcomeText (runQueryFull pplxCfg true hc ((pre ++ plateau).map some)).1 =
        some T)
    ∧
    (∀ (hc : Bool) (pre plateau : List Extraction) (T : String),
      (∀ e ∈ pre, 10 < e.answerText.length) →
      List.Chain' (fun a b => a.answerText ≠ b.answerText) pre →
      10 < T.length →
      (∀ e ∈ plateau, e.answerText = T) →
      11 ≤ plateau.length →
      isStable (runQueryFull geminiCfg true hc ((pre ++ plateau).map some)).1 = true ∧
      outcomeText (runQueryFull geminiCfg true hc ((pre ++ plateau).map some)).1 =
        some T) := by
  constructor
  · intro hc pre plateau T h1 h2 h3 h4 h5
    exact forcedStable pplxCfg hc pre plateau T h1 h2 h3 h4 h5 (by decide)
  · intro hc pre plateau T h1 h2 h3 h4 h5
    exact forcedStable geminiCfg hc pre plateau T h1 h2 h3 h4 h5 (by decide)

/-- Witness for claim C1 at a concrete input: an empty initial segment and
nine polls of one 18-character text. -/
theorem claim1_witness :
    9 ≤ (List.replicate 9 (mkE "the witness answer" false)).length ∧
    isStable (runQueryFull pplxCfg true true
      (([] ++ List.replicate 9 (mkE "the witness answer" false)).map some)).1 = true ∧
    outcomeText (runQueryFull pplxCfg true true
      (([] ++ List.replicate 9 (mkE "the witness answer" false)).map some)).1 =
      some "the witness answer" :=
  ⟨by decide,
   claim1_forced_stable.1 true [] (List.replicate 9 (mkE "the witness answer" false))
     "the witness answer" (by simp) (by simp) (by decide)
     (fun e he => by rw [List.eq_of_mem_replicate he]; rfl) (by decide)⟩

/-- Existential form of `step_guard_reset`. -/
theorem step_guard_reset_ex (cfg : Config) (hc : Bool) (s : PollState)
    (e : Extraction) (hg : cfg.guardLen < e.answerText.length)
    (hne : e.answerText ≠ s.lastText) :
    ∃ s2, step cfg hc s e = Sum.inl s2 ∧ s2.stableCount = 0 ∧
      s2.lastText = e.answerText :=
  ⟨_, step_guard_reset cfg hc s e hg hne, rfl, rfl⟩

/-- Running the loop over `k` copies of one guard-passing sample equal to
the retained text, with `k` strictly below both exit thresholds: the run
only counts, ending with `stableCount` increased by `k`. -/
theorem runLoop_replicate_cont (cfg : Config) (hc : Bool) (e : Extraction)
    (hg : cfg.guardLen < e.answerText.length) :
    ∀ (k : Nat) (s : PollState),
      s.lastText = e.answerText →
      s.stableCount + k < cfg.lowThr e →
      s.stableCount + k < cfg.highThr →
      ∃ s', runLoop cfg hc s (List.replicate k (some e)) = LoopRes.cont s' ∧
        s'.stableCount = s.stableCount + k ∧ s'.lastText = e.answerText := by
  intro k
  induction k with
  | zero => intro s hl _ _; exact ⟨s, rfl, rfl, hl⟩
  | succ k ih =>
    intro s hl hlow hhigh
    have hcond : ¬ ((e.isLoading = false ∧ cfg.lowThr e ≤ s.stableCount + 1) ∨
        cfg.highThr ≤ s.stableCount + 1) := by
      intro hor
      cases hor with
      | inl h => exact absurd h.2 (by omega)
      | inr h => omega
    rw [List.replicate_succ, runLoop_cons,
        step_stable_cont cfg hc s e hg hl.symm hcond]
    obtain ⟨s', h1, h2, h3⟩ :=
      ih { (chunkUpd hc s e) with
           stableCount := s.stableCount + 1, lastText := e.answerText }
        rfl (by show s.stableCount + 1 + k < cfg.lowThr e; omega)
        (by show s.stableCount + 1 + k < cfg.highThr; omega)
    have h2' : s'.stableCount = s.stableCount + 1 + k := h2
    exact ⟨s', h1, by omega, h3⟩

/-- Claim C2 core: after a guard-passing, consecutively-changing initial
segment whose last text differs from `T`, the text `T` appears and then
repeats with the busy signal off.  The loop exits exactly at the
`lowThreshold`-th repeat — with one repeat fewer it is still polling. -/
theorem earlyStable (cfg : Config) (hc : Bool)
    (pre : List Extraction) (occ erep : Extraction) (T : String)
    (hpre : ∀ e ∈ pre, cfg.guardLen < e.answerText.length)
    (hch : List.Chain' (fun a b => a.answerText ≠ b.answerText) pre)
    (hT : cfg.guardLen < T.length)
    (hocc : occ.answerText = T) (hrep : erep.answerText = T)
    (hload : erep.isLoading = false)
    (hlastne : ((pre.map fun e => e.answerText).getLast?).getD "" ≠ T)
    (hk1 : 1 ≤ cfg.lowThr erep) (hkh : cfg.lowThr erep ≤ cfg.highThr) :
    (isStable (runQueryFull cfg true hc
        ((pre ++ occ :: List.replicate (cfg.lowThr erep) erep).map some)).1 = true ∧
     outcomeText (runQueryFull cfg true hc
        ((pre ++ occ :: List.replicate (cfg.lowThr erep) erep).map some)).1 =
       some T)
    ∧ isCont (runLoop cfg hc initS
        ((pre ++ occ :: List.replicate (cfg.lowThr erep - 1) erep).map some)) =
        true := by
  have hhd : ∀ e, pre.head? = some e → e.answerText ≠ initS.lastText := by
    intro e he
    exact ne_empty_of_length_pos
      (Nat.lt_of_le_of_lt (Nat.zero_le _) (hpre e (List.mem_of_mem_head? he)))
  obtain ⟨s1, hrun1, hsc1, hl1⟩ := runLoop_distinct cfg hc pre initS hpre hch hhd rfl
  have hlne : occ.answerText ≠ s1.lastText := by
    rw [hocc, hl1]
    exact fun h => hlastne h.symm
  have hgocc : cfg.guardLen < occ.answerText.length := by rw [hocc]; exact hT
  have hgrep : cfg.guardLen < erep.answerText.length := by rw [hrep]; exact hT
  obtain ⟨s2, hstep, hsc2, hl2⟩ := step_guard_reset_ex cfg hc s1 occ hgocc hlne
  obtain ⟨s3, hrun3, hsc3, hl3⟩ :=
    runLoop_replicate_cont cfg hc erep hgrep (cfg.lowThr erep - 1) s2
      (by rw [hl2, hocc, hrep]) (by omega) (by omega)
  have hA : ∀ k : Nat,
      runLoop cfg hc initS ((pre ++ occ :: List.replicate k erep).map some) =
        runLoop cfg hc s2 (List.replicate k (some erep)) := by
    intro k
    rw [List.map_append, runLoop_append, hrun1]
    show runLoop cfg hc s1 ((occ :: List.replicate k erep).map some) =
      runLoop cfg hc s2 (List.replicate k (some erep))
    rw [List.map_cons, runLoop_cons, hstep]
    show runLoop cfg hc s2 (List.map some (List.replicate k erep)) =
      runLoop cfg hc s2 (List.replicate k (some erep))
    rw [List.map_replicate]
  constructor
  · -- the full run exits at the lowThr-th repeat with answer T
    have hrepl : List.replicate (cfg.lowThr erep) (some erep) =
        List.replicate (cfg.lowThr erep - 1) (some erep) ++ [some erep] := by
      have h : cfg.lowThr erep = (cfg.lowThr erep - 1) + 1 := by omega
      rw [h, List.replicate_succ']
      simp
    have hexit : step cfg hc s3 erep =
        Sum.inr ({ (chunkUpd hc s3 erep) with stableCount := s3.stableCount + 1 },
                 { answer := erep.answerText,
                   sources := if cfg.keepSources then erep.sources else [] }) := by
      apply step_stable_exit cfg hc s3 erep hgrep hl3.symm
      exact Or.inl ⟨hload, by omega⟩
    have hfull : runLoop cfg hc initS
        ((pre ++ occ :: List.replicate (cfg.lowThr erep) erep).map some) =
        LoopRes.done
          { (chunkUpd hc s3 erep) with stableCount := s3.stableCount + 1 }
          { answer := erep.answerText,
            sources := if cfg.keepSources then erep.sources else [] } := by
      rw [hA, hrepl, runLoop_append, hrun3]
      show runLoop cfg hc s3 [some erep] = _
      rw [runLoop_cons, hexit]
    rw [runQueryFull, if_neg (by simp), hfull]
    constructor
    · rfl
    · show some erep.answerText = some T
      rw [hrep]
  · -- with one repeat fewer the loop is still polling
    rw [hA, hrun3]
    rfl

/-- Claim C2, counterexample.  In `c2samples` the text `c2T` repeats on four
consecutive polls (at least `lowThreshold = 3`, fewer than
`highThreshold = 8`) and the busy signal becomes false (on the fourth
repeat), yet after the third repeat — where the claim places the STABLE
transition — the loop is still polling, because the busy signal was still
true there; it returns only at the fourth repeat. -/
theorem claim2_cex :
    isCont (runLoop pplxCfg true initS (c2samples.take 4)) = true ∧
    (runQueryFull pplxCfg true true c2samples).1 = Outcome.stable c2T [] := by
  exact ⟨by decide, by decide⟩

/-- Claim C2 (amended): for both engines, after a guard-passing sample
sequence whose text changes at every poll and whose last text differs from
`T`, the text `T` appears once and then repeats on polls whose busy signal
is false.  The detector transitions to STABLE with answer `T` exactly at
the `lowThreshold`-th repeat (3 for Perplexity; for Gemini 2 when
`model-response` is present and 5 otherwise): with the threshold number of
repeats it has returned, with one repeat fewer it is still polling. -/
theorem claim2_early_stable :
    (∀ (hc : Bool) (pre : List Extraction) (occ erep : Extraction) (T : String),
      (∀ e ∈ pre, 0 < e.answerText.length) →
      List.Chain' (fun a b => a.answerText ≠ b.answerText) pre →
      0 < T.length →
      occ.answerText = T → erep.answerText = T → erep.isLoading = false →
      ((pre.map fun e => e.answerText).getLast?).getD "" ≠ T →
      ((isStable (runQueryFull pplxCfg true hc
          ((pre ++ occ :: List.replicate 3 erep).map some)).1 = true ∧
        outcomeText (runQueryFull pplxCfg true hc
          ((pre ++ occ :: List.replicate 3 erep).map some)).1 = some T) ∧
       isCont (runLoop pplxCfg hc initS
          ((pre ++ occ :: List.replicate 2 erep).map some)) = true))
    ∧
    (∀ (hc : Bool) (pre : List Extraction) (occ erep : Extraction) (T : String),
      (∀ e ∈ pre, 10 < e.answerText.length) →
      List.Chain' (fun a b => a.answerText ≠ b.answerText) pre →
      10 < T.length →
      occ.answerText = T → erep.answerText = T → erep.isLoading = false →
      ((pre.map fun e => e.answerText).getLast?).getD "" ≠ T →
      ((isStable (runQueryFull geminiCfg true hc
          ((pre ++ occ :: List.replicate
            (if erep.modelResponseExists then 2 else 5) erep).map some)).1 = true ∧
        outcomeText (runQueryFull geminiCfg true hc
          ((pre ++ occ :: List.replicate
            (if erep.modelResponseExists then 2 else 5) erep).map some)).1 =
          some T) ∧
       isCont (runLoop geminiCfg hc initS
          ((pre ++ occ :: List.replicate
            ((if erep.modelResponseExists then 2 else 5) - 1) erep).map some)) =
         true)) := by
  constructor
  · intro hc pre occ erep T h1 h2 h3 h4 h5 h6 h7
    exact earlyStable pplxCfg hc pre occ erep T h1 h2 h3 h4 h5 h6 h7
      (by show (1 : Nat) ≤ 3; decide) (by show (3 : Nat) ≤ 8; decide)
  · intro hc pre occ erep T h1 h2 h3 h4 h5 h6 h7
    exact earlyStable geminiCfg hc pre occ erep T h1 h2 h3 h4 h5 h6 h7
      (by cases hm : erep.modelResponseExists <;> simp [geminiCfg, hm])
      (by cases hm : erep.modelResponseExists <;> simp [geminiCfg, hm])

/-- Witness for claim C2 at a concrete input: no initial segment, one
occurrence of a 17-character text, then three not-busy repeats. -/
theorem claim2_witness :
    0 < ("claim two witness" : String).length ∧
    ((isStable (runQueryFull pplxCfg true true
        (([] ++ mkE "claim two witness" true ::
          List.replicate 3 (mkE "claim two witness" false)).map some)).1 = true ∧
      outcomeText (runQueryFull pplxCfg true true
        (([] ++ mkE "claim two witness" true ::
          List.replicate 3 (mkE "claim two witness" false)).map some)).1 =
        some "claim two witness") ∧
     isCont (runLoop pplxCfg true initS
        (([] ++ mkE "claim two witness" true ::
          List.replicate 2 (mkE "claim two witness" false)).map some)) = true) :=
  ⟨by decide,
   claim2_early_stable.1 true [] (mkE "claim two witness" true)
     (mkE "claim two witness" false) "claim two witness"
     (by simp) (by simp) (by decide) rfl rfl rfl (by decide)⟩

/-! String-extension lemmas for the streaming claim. -/

theorem str_ext {s t : String} (h : s.data = t.data) : s = t := by
  cases s; cases t; exact congrArg String.mk h

theorem strExt_empty (t : String) : strExt "" t := rfl

theorem strExt_len_le {s t : String} (h : strExt s t) : s.length ≤ t.length := by
  have hlen := congrArg List.length h
  rw [List.length_take] at hlen
  exact min_eq_left_iff.mp hlen

theorem strExt_eq_of_len_le {s t : String} (h : strExt s t)
    (hle : t.length ≤ s.length) : s = t := by
  have h2 : s.data.length = t.data.length :=
    Nat.le_antisymm (strExt_len_le h) hle
  apply str_ext
  rw [← h, h2, List.take_length]

theorem strExt_trans {a b c : String} (h1 : strExt a b) (h2 : strExt b c) :
    strExt a c := by
  have hab : a.data.length ≤ b.data.length := strExt_len_le h1
  unfold strExt at h1 h2 ⊢
  rw [← h2, List.take_take, min_eq_left hab] at h1
  exact h1

theorem strExt_append_drop {s t : String} (h : strExt s t) :
    s ++ sliceFrom t s.length = t := by
  apply str_ext
  show s.data ++ t.data.drop s.data.length = t.data
  calc s.data ++ t.data.drop s.data.length
      = t.data.take s.data.length ++ t.data.drop s.data.length := by rw [h]
    _ = t.data := List.take_append_drop _ _

theorem join_append_single (l : List String) (x : String) :
    String.join (l ++ [x]) = String.join l ++ x := by
  simp [String.join, List.foldl_append]

theorem strExt_refl (t : String) : strExt t t := by
  unfold strExt
  exact List.take_length _

/-- A constant sample sequence is a `strExt` chain; used by the claim C3
witness. -/
theorem chain_strExt_replicate_wit :
    List.Chain' (fun a b => strExt a.answerText b.answerText)
      (List.replicate 4 (mkE "good answer" false)) := by
  show List.Chain' (fun a b => strExt a.answerText b.answerText)
    [mkE "good answer" false, mkE "good answer" false,
     mkE "good answer" false, mkE "good answer" false]
  simp [List.chain'_cons, strExt_refl]

theorem runQueryFull_cont (cfg : Config) (hc : Bool)
    (samples : List (Option Extraction)) (s' : PollState)
    (h : runLoop cfg hc initS samples = LoopRes.cont s') :
    runQueryFull cfg true hc samples =
      if s'.lastText ≠ "" then (Outcome.timeoutText s'.lastText [], s'.chunks)
      else (Outcome.noAnswer, s'.chunks) := by
  rw [runQueryFull, if_neg (by simp), h]

theorem runQueryFull_done (cfg : Config) (hc : Bool)
    (samples : List (Option Extraction)) (s' : PollState) (a : Ans)
    (h : runLoop cfg hc initS samples = LoopRes.done s' a) :
    runQueryFull cfg true hc samples =
      (Outcome.stable a.answer a.sources, s'.chunks) := by
  rw [runQueryFull, if_neg (by simp), h]

theorem runQueryFull_threw (cfg : Config) (hc : Bool)
    (samples : List (Option Extraction)) (s' : PollState)
    (h : runLoop cfg hc initS samples = LoopRes.threw s') :
    runQueryFull cfg true hc samples = (Outcome.pollThrew, s'.chunks) := by
  rw [runQueryFull, if_neg (by simp), h]

/-- When the sample's text extends the retained text, the chunk block
leaves the concatenation of all emitted deltas equal to the sample's text,
and `lastChunkedLength` equal to its length. -/
theorem chunkUpd_join (s : PollState) (e : Extraction)
    (hext : strExt s.lastText e.answerText)
    (hj : String.join s.chunks = s.lastText)
    (hl : s.lastChunkedLength = s.lastText.length) :
    String.join (chunkUpd true s e).chunks = e.answerText ∧
    (chunkUpd true s e).lastChunkedLength = e.answerText.length := by
  unfold chunkUpd
  by_cases hlt : s.lastChunkedLength < e.answerText.length
  · rw [if_pos ⟨rfl, hlt⟩]
    refine ⟨?_, rfl⟩
    show String.join (s.chunks ++ [sliceFrom e.answerText s.lastChunkedLength]) =
      e.answerText
    rw [join_append_single, hj, hl]
    exact strExt_append_drop hext
  · rw [if_neg (fun hcon => hlt hcon.2)]
    have hle : e.answerText.length ≤ s.lastText.length := by omega
    have heq : s.lastText = e.answerText := strExt_eq_of_len_le hext hle
    exact ⟨by rw [hj, heq], by rw [hl, heq]⟩

/-- The streaming invariant: over a sample sequence whose texts extend one
another poll to poll, the concatenation of the emitted deltas always equals
the retained text, and on a returning exit it equals the returned answer. -/
theorem runLoop_chain_emits (cfg : Config) :
    ∀ (l : List Extraction) (s : PollState),
      List.Chain' (fun a b => strExt a.answerText b.answerText) l →
      (∀ e, l.head? = some e → strExt s.lastText e.answerText) →
      String.join s.chunks = s.lastText →
      s.lastChunkedLength = s.lastText.length →
      (match runLoop cfg true s (l.map some) with
       | LoopRes.cont s' => String.join s'.chunks = s'.lastText ∧
           s'.lastChunkedLength = s'.lastText.length
       | LoopRes.done s' a => String.join s'.chunks = a.answer
       | LoopRes.threw _ => True) := by
  intro l
  induction l with
  | nil => intro s _ _ hj hl; exact ⟨hj, hl⟩
  | cons e l ih =>
    intro s hch hhd hj hl
    have hext : strExt s.lastText e.answerText := hhd e rfl
    have hrel : ∀ x, l.head? = some x → strExt e.answerText x.answerText := by
      intro x hx
      cases l with
      | nil => cases hx
      | cons y t => cases hx; exact (List.chain'_cons.mp hch).1
    by_cases hg : cfg.guardLen < e.answerText.length
    · obtain ⟨hjoin, hlen⟩ := chunkUpd_join s e hext hj hl
      by_cases heq : e.answerText = s.lastText
      · by_cases hcond : (e.isLoading = false ∧ cfg.lowThr e ≤ s.stableCount + 1) ∨
            cfg.highThr ≤ s.stableCount + 1
        · rw [List.map_cons, runLoop_cons, step_stable_exit cfg true s e hg heq hcond]
          exact hjoin
        · rw [List.map_cons, runLoop_cons, step_stable_cont cfg true s e hg heq hcond]
          exact ih _ hch.tail (fun x hx => hrel x hx) hjoin hlen
      · rw [List.map_cons, runLoop_cons, step_guard_reset cfg true s e hg heq]
        exact ih _ hch.tail (fun x hx => hrel x hx) hjoin hlen
    · by_cases hfb : cfg.fallbackOnModelResponse = true ∧
          e.modelResponseExists = true ∧ s.lastText ≠ ""
      · rw [List.map_cons, runLoop_cons, step_fallback_exit cfg true s e hg hfb]
        exact hj
      · rw [List.map_cons, runLoop_cons, step_skip cfg true s e hg hfb]
        exact ih _ hch.tail (fun x hx => strExt_trans hext (hrel x hx)) hj hl

theorem step_lcl_mono_inl (cfg : Config) (hc : Bool) (s s' : PollState)
    (e : Extraction) (h : step cfg hc s e = Sum.inl s') :
    s.lastChunkedLength ≤ s'.lastChunkedLength := by
  unfold step at h
  split at h
  · split at h
    · split at h
      · exact Sum.noConfusion h
      · injection h with h2
        rw [← h2]
        exact chunkUpd_lcl_le hc s e
    · injection h with h2
      rw [← h2]
      exact chunkUpd_lcl_le hc s e
  · split at h
    · exact Sum.noConfusion h
    · injection h with h2
      rw [← h2]

theorem step_lcl_mono_inr (cfg : Config) (hc : Bool) (s s' : PollState)
    (a : Ans) (e : Extraction) (h : step cfg hc s e = Sum.inr (s', a)) :
    s.lastChunkedLength ≤ s'.lastChunkedLength := by
  unfold step at h
  split at h
  · split at h
    · split at h
      · injection h with h2
        injection h2 with hfst hsnd
        rw [← hfst]
        exact chunkUpd_lcl_le hc s e
      · exact Sum.noConfusion h
    · exact Sum.noConfusion h
  · split at h
    · injection h with h2
      injection h2 with hfst hsnd
      rw [← hfst]
    · exact Sum.noConfusion h

/-- Claim C3, counterexample.  The deltas are cut by length alone
(`text.slice(lastChunkedLength)`), so when the text changes wholesale while
growing — here from `"hello"` to `"worldfull!"` — the emitted deltas are
`"hello"` and `"full!"`, whose concatenation `"hellofull!"` is not the final
answer `"worldfull!"`: the execution reaches a terminal outcome whose answer
differs from the concatenation of the emitted deltas. -/
theorem claim3_cex :
    runQueryFull pplxCfg true true c3samples =
      (Outcome.stable "worldfull!" [], ["hello", "full!"]) ∧
    String.join ["hello", "full!"] ≠ "worldfull!" := by
  exact ⟨by decide, by decide⟩

/-- Claim C3 (amended): `lastChunkedLength` never decreases at any loop
iteration (both when the loop continues and when it returns); and when each
observed text extends the previous one as a string — the streaming situation
the emission scheme assumes — every terminal outcome that carries an answer
(stable or timeout-with-text) carries exactly the concatenation of the
emitted deltas: nothing is repeated, nothing is skipped. -/
theorem claim3_streaming_gapless :
    (∀ (cfg : Config) (hc : Bool) (s s' : PollState) (e : Extraction),
      step cfg hc s e = Sum.inl s' →
      s.lastChunkedLength ≤ s'.lastChunkedLength) ∧
    (∀ (cfg : Config) (hc : Bool) (s s' : PollState) (a : Ans) (e : Extraction),
      step cfg hc s e = Sum.inr (s', a) →
      s.lastChunkedLength ≤ s'.lastChunkedLength) ∧
    (∀ (cfg : Config) (l : List Extraction) (T : String) (srcs : List Citation),
      List.Chain' (fun a b => strExt a.answerText b.answerText) l →
      ((runQueryFull cfg true true (l.map some)).1 = Outcome.stable T srcs ∨
       (runQueryFull cfg true true (l.map some)).1 = Outcome.timeoutText T srcs) →
      String.join (runQueryFull cfg true true (l.map some)).2 = T) := by
  refine ⟨step_lcl_mono_inl, step_lcl_mono_inr, ?_⟩
  intro cfg l T srcs hch hout
  have hinv := runLoop_chain_emits cfg l initS hch
    (fun e _ => strExt_empty e.answerText) rfl rfl
  cases hres : runLoop cfg true initS (l.map some) with
  | cont s' =>
    rw [hres] at hinv
    have hinv' : String.join s'.chunks = s'.lastText ∧
        s'.lastChunkedLength = s'.lastText.length := hinv
    rw [runQueryFull_cont cfg true (l.map some) s' hres] at hout ⊢
    by_cases hne : s'.lastText ≠ ""
    · rw [if_pos hne] at hout ⊢
      have hout2 : Outcome.timeoutText s'.lastText [] = Outcome.stable T srcs ∨
          Outcome.timeoutText s'.lastText [] = Outcome.timeoutText T srcs := hout
      show String.join s'.chunks = T
      cases hout2 with
      | inl h => exact Outcome.noConfusion h
      | inr h =>
        injection h with h1 h2
        rw [hinv'.1, h1]
    · rw [if_neg hne] at hout
      have hout2 : Outcome.noAnswer = Outcome.stable T srcs ∨
          Outcome.noAnswer = Outcome.timeoutText T srcs := hout
      cases hout2 with
      | inl h => exact Outcome.noConfusion h
      | inr h => exact Outcome.noConfusion h
  | done s' a =>
    rw [hres] at hinv
    have hinv' : String.join s'.chunks = a.answer := hinv
    rw [runQueryFull_done cfg true (l.map some) s' a hres] at hout ⊢
    have hout2 : Outcome.stable a.answer a.sources = Outcome.stable T srcs ∨
        Outcome.stable a.answer a.sources = Outcome.timeoutText T srcs := hout
    show String.join s'.chunks = T
    cases hout2 with
    | inl h =>
      injection h with h1 h2
      rw [hinv', h1]
    | inr h => exact Outcome.noConfusion h
  | threw s' =>
    rw [runQueryFull_threw cfg true (l.map some) s' hres] at hout
    have hout2 : Outcome.pollThrew = Outcome.stable T srcs ∨
        Outcome.pollThrew = Outcome.timeoutText T srcs := hout
    cases hout2 with
    | inl h => exact Outcome.noConfusion h
    | inr h => exact Outcome.noConfusion h

/-- Witness for claim C3 at a concrete input: four polls of one constant
text (each text trivially extends the previous one), ending stable; the
single emitted delta is the whole answer. -/
theorem claim3_witness :
    List.Chain' (fun a b => strExt a.answerText b.answerText)
      (List.replicate 4 (mkE "good answer" false)) ∧
    String.join (runQueryFull pplxCfg true true
      ((List.replicate 4 (mkE "good answer" false)).map some)).2 = "good answer" :=
  ⟨chain_strExt_replicate_wit,
   claim3_streaming_gapless.2.2 pplxCfg (List.replicate 4 (mkE "good answer" false))
     "good answer" [] chain_strExt_replicate_wit (Or.inl (by decide))⟩

/-- Claim C4, counterexample.  The Perplexity `extractAnswer` never compares
the observed text with the query — it does not even receive the query — so
for query `"What is X?"` and a surface whose prose element shows exactly
`"You said What is X?"`, it returns the echoed string, not empty text.
The claimed echo guard holds only for the Gemini adapter. -/
theorem claim4_cex :
    perplexityAnswerText ["You said What is X?"] [] = "You said What is X?" ∧
    perplexityAnswerText ["You said What is X?"] [] ≠ "" := by
  exact ⟨by decide, by decide⟩

/-- Claim C4 (amended): the Gemini adapter's `extractAnswer` applies the
echo guard — whenever query and text are non-empty and the normalized text
equals the normalized query, is a prefix-match echo of it, or is a
`"you said <query>"` framing of it, the text is discarded and empty text is
returned; in particular for query `"What is X?"` and observed text
`"You said What is X?"`.  The Perplexity adapter applies no echo guard and
returns such observed text unchanged. -/
theorem claim4_echo_guard :
    (∀ q t : String, q ≠ "" → t ≠ "" →
      (normWs t = normWs q ∨
       strExt (takeChars (normWs q) 120) (normWs t) ∨
       strExt ("you said " ++ takeChars (normWs q) 100) (normWs t) ∨
       strExt (takeChars (normWs q) 120) (stripLeadingYouSaid (normWs t))) →
      echoGuard q t = "") ∧
    echoGuard "What is X?" "You said What is X?" = "" := by
  constructor
  · intro q t hq ht hcond
    unfold echoGuard
    rw [if_pos ⟨hq, ht⟩, if_pos hcond]
  · decide

/-- Witness for claim C4 at a concrete input. -/
theorem claim4_witness :
    ("What is X?" : String) ≠ "" ∧
    echoGuard "What is X?" "You said What is X?" = "" :=
  ⟨by decide,
   claim4_echo_guard.1 "What is X?" "You said What is X?" (by decide) (by decide)
     (by decide)⟩

/-- Claim C5, counterexample.  In `c5samples` the first poll throws and every
later poll reports one stable, not-busy text; the claim predicts the throw
is swallowed as an empty sample and polling continues to a stable answer,
but the execution rejects with the propagated poll exception, emitting
nothing. -/
theorem claim5_cex :
    runQueryFull pplxCfg true true c5samples = (Outcome.pollThrew, []) ∧
    Outcome.pollThrew ≠ Outcome.stable "a stable answer here" [] := by
  exact ⟨by decide, by decide⟩

/-- Claim C5 (amended): an exception thrown while taking a sample is not
swallowed.  The loop body has no handler, so whatever polls already
succeeded and whatever samples would follow, the first throwing poll aborts
the loop and the execution settles with the propagated exception — a
rejected promise — for any engine configuration. -/
theorem claim5_poll_error_propagates :
    ∀ (cfg : Config) (hc : Bool) (good : List Extraction)
      (rest : List (Option Extraction)) (s' : PollState),
      runLoop cfg hc initS (good.map some) = LoopRes.cont s' →
      (runQueryFull cfg true hc (good.map some ++ none :: rest)).1 =
        Outcome.pollThrew := by
  intro cfg hc good rest s' h
  have hrun : runLoop cfg hc initS (good.map some ++ none :: rest) =
      LoopRes.threw s' := by
    rw [runLoop_append, h]
    rfl
  rw [runQueryFull_threw cfg hc _ s' hrun]

/-- Witness for claim C5 at a concrete input: no successful polls, then a
throwing poll. -/
theorem claim5_witness :
    runLoop pplxCfg true initS (([] : List Extraction).map some) =
      LoopRes.cont initS ∧
    (runQueryFull pplxCfg true true
      (([] : List Extraction).map some ++ none :: [])).1 = Outcome.pollThrew :=
  ⟨rfl, claim5_poll_error_propagates pplxCfg true [] [] initS rfl⟩

/-- When the loop runs out of samples, the retained text is the text of the
last guard-passing sample, folded from the entry state's text. -/
theorem runLoop_cont_lastText (cfg : Config) (hc : Bool) :
    ∀ (l : List Extraction) (s s' : PollState),
      runLoop cfg hc s (l.map some) = LoopRes.cont s' →
      s'.lastText = l.foldl (fun acc e =>
        if cfg.guardLen < e.answerText.length then e.answerText else acc)
        s.lastText := by
  intro l
  induction l with
  | nil =>
    intro s s' h
    injection h with h2
    rw [← h2]
    rfl
  | cons e l ih =>
    intro s s' h
    rw [List.map_cons, runLoop_cons] at h
    rw [List.foldl_cons]
    by_cases hg : cfg.guardLen < e.answerText.length
    · rw [if_pos hg]
      by_cases heq : e.answerText = s.lastText
      · by_cases hcond : (e.isLoading = false ∧ cfg.lowThr e ≤ s.stableCount + 1) ∨
            cfg.highThr ≤ s.stableCount + 1
        · rw [step_stable_exit cfg hc s e hg heq hcond] at h
          exact LoopRes.noConfusion h
        · rw [step_stable_cont cfg hc s e hg heq hcond] at h
          exact ih _ s' h
      · rw [step_guard_reset cfg hc s e hg heq] at h
        exact ih _ s' h
    · rw [if_neg hg]
      by_cases hfb : cfg.fallbackOnModelResponse = true ∧
          e.modelResponseExists = true ∧ s.lastText ≠ ""
      · rw [step_fallback_exit cfg hc s e hg hfb] at h
        exact LoopRes.noConfusion h
      · rw [step_skip cfg hc s e hg hfb] at h
        exact ih _ s' h

/-- Claim C6, counterexample (Gemini engine).  A single sample with the
non-empty five-character text `"short"` — below the Gemini length guard —
and no stability exit: the claim predicts a partial-answer success carrying
`"short"`, but the engine throws the no-answer timeout error. -/
theorem claim6_cex :
    (runQueryFull geminiCfg true true c6samples).1 = Outcome.noAnswer ∧
    Outcome.noAnswer ≠ Outcome.timeoutText "short" [] := by
  exact ⟨by decide, by decide⟩

/-- Claim C6 (amended): when the loop reaches the deadline without any
stability exit (and no poll threw), the execution settles in exactly one of
two ways: if some sample passed the engine's length guard (non-empty text
for Perplexity, longer than 10 characters for Gemini), it resolves as a
normal success carrying the last such text and an empty citation list;
otherwise it rejects with the no-answer timeout error. -/
theorem claim6_deadline :
    ∀ (cfg : Config) (hc : Bool) (l : List Extraction) (s' : PollState),
      runLoop cfg hc initS (l.map some) = LoopRes.cont s' →
      (runQueryFull cfg true hc (l.map some)).1 =
        if lastGood cfg l ≠ "" then Outcome.timeoutText (lastGood cfg l) []
        else Outcome.noAnswer := by
  intro cfg hc l s' h
  have hlast : s'.lastText = lastGood cfg l :=
    runLoop_cont_lastText cfg hc l initS s' h
  rw [runQueryFull_cont cfg hc (l.map some) s' h, hlast]
  by_cases hne : lastGood cfg l ≠ ""
  · rw [if_pos hne, if_pos hne]
  · rw [if_neg hne, if_neg hne]

/-- Witness for claim C6 at a concrete input: one guard-passing sample that
never stabilizes, ending in the timeout path with its text and no
citations. -/
theorem claim6_witness :
    runLoop pplxCfg true initS ([mkE "observed text here!" true].map some) =
      LoopRes.cont ⟨"observed text here!", 0, 19, ["observed text here!"]⟩ ∧
    (runQueryFull pplxCfg true true
      ([mkE "observed text here!" true].map some)).1 =
      if lastGood pplxCfg [mkE "observed text here!" true] ≠ ""
      then Outcome.timeoutText (lastGood pplxCfg [mkE "observed text here!" true]) []
      else Outcome.noAnswer :=
  ⟨by decide,
   claim6_deadline pplxCfg true [mkE "observed text here!" true]
     ⟨"observed text here!", 0, 19, ["observed text here!"]⟩ (by decide)⟩

/-! Lemmas about the serialized request queue. -/

theorem startedIds_append (t1 t2 : List QEv) :
    startedIds (t1 ++ t2) = startedIds t1 ++ startedIds t2 :=
  List.filterMap_append t1 t2 _

theorem startedIds_single_start (i : Nat) : startedIds [QEv.start i] = [i] := rfl

theorem startedIds_single_settle (i : Nat) (ok : Bool) :
    startedIds [QEv.settle i ok] = [] := rfl

theorem startCount_append (t1 t2 : List QEv) :
    startCount (t1 ++ t2) = startCount t1 + startCount t2 :=
  List.countP_append _ t1 t2

theorem settleCount_append (t1 t2 : List QEv) :
    settleCount (t1 ++ t2) = settleCount t1 + settleCount t2 :=
  List.countP_append _ t1 t2

theorem qinv_enqueue :
    ∀ (s : QState) (enq : List Nat), QInv s enq →
      ∀ j : Job, QInv (enqueueJob s j) (enq ++ [j.id]) := by
  rintro ⟨queue, proc, cur, tr⟩ enq ⟨htr, hpc, hpq, hids⟩ j
  unfold enqueueJob processQueueStart
  dsimp only at htr hpc hpq hids ⊢
  cases proc with
  | true =>
    rw [if_pos (Or.inl rfl)]
    refine ⟨htr, hpc, fun h => Bool.noConfusion h, ?_⟩
    dsimp only
    rw [List.map_append, ← List.append_assoc, hids]
    rfl
  | false =>
    have hq : queue = [] := hpq rfl
    subst hq
    have hcur : cur = none := by
      cases cur with
      | none => rfl
      | some x => exact Bool.noConfusion hpc
    subst hcur
    rw [if_neg (by simp)]
    refine ⟨OkTrace.start tr j htr, rfl, fun _ => rfl, ?_⟩
    show startedIds (tr ++ [QEv.start j.id]) ++ List.map Job.id [] = enq ++ [j.id]
    rw [startedIds_append, startedIds_single_start]
    simp only [List.map_nil, List.append_nil] at hids ⊢
    rw [hids]

theorem qinv_settle :
    ∀ (s : QState) (enq : List Nat), QInv s enq → QInv (settleJob s) enq := by
  rintro ⟨queue, proc, cur, tr⟩ enq ⟨htr, hpc, hpq, hids⟩
  unfold settleJob
  dsimp only at htr hpc hpq hids ⊢
  cases cur with
  | none => exact ⟨htr, hpc, hpq, hids⟩
  | some j =>
    have hp : proc = true := hpc
    subst hp
    unfold processQueueStart
    dsimp only
    cases queue with
    | nil =>
      rw [if_pos (Or.inr rfl)]
      refine ⟨OkTrace.finish tr j _ htr, rfl, fun _ => rfl, ?_⟩
      dsimp only
      rw [startedIds_append, startedIds_single_settle]
      simpa using hids
    | cons k rest =>
      rw [if_neg (by simp)]
      dsimp only
      refine ⟨OkTrace.start _ k (OkTrace.finish tr j _ htr), rfl,
              fun h => Bool.noConfusion h, ?_⟩
      dsimp only
      rw [startedIds_append, startedIds_append, startedIds_single_settle,
          startedIds_single_start]
      simp only [List.map_cons] at hids
      simp only [List.append_nil, List.append_assoc, List.singleton_append]
      simpa [List.append_assoc] using hids

theorem enqIds_cons_enq (j : Job) (ops : List QOp) :
    enqIds (QOp.enq j :: ops) = j.id :: enqIds ops := rfl

theorem enqIds_cons_settle (ops : List QOp) :
    enqIds (QOp.settle :: ops) = enqIds ops := rfl

theorem qinv_runOps :
    ∀ (ops : List QOp) (s : QState) (enq : List Nat), QInv s enq →
      QInv (ops.foldl (fun s op =>
        match op with
        | QOp.enq j => enqueueJob s j
        | QOp.settle => settleJob s) s) (enq ++ enqIds ops) := by
  intro ops
  induction ops with
  | nil => intro s enq h; simpa [enqIds] using h
  | cons op rest ih =>
    intro s enq h
    cases op with
    | enq j =>
      have h3 := ih (enqueueJob s j) (enq ++ [j.id]) (qinv_enqueue s enq h j)
      rw [enqIds_cons_enq]
      have harr : (enq ++ [j.id]) ++ enqIds rest = enq ++ (j.id :: enqIds rest) := by
        rw [List.append_assoc]
        rfl
      rw [← harr]
      exact h3
    | settle =>
      have h3 := ih (settleJob s) enq (qinv_settle s enq h)
      rw [enqIds_cons_settle]
      exact h3

theorem qinv_main (ops : List QOp) : QInv (runOps ops) (enqIds ops) := by
  have h := qinv_runOps ops initQ [] ⟨OkTrace.nil, rfl, fun _ => rfl, rfl⟩
  simpa [runOps] using h

theorem okTrace_counts :
    ∀ {t : List QEv} {c : Option Job}, OkTrace t c →
      (c = none → startCount t = settleCount t) ∧
      (∀ j, c = some j → startCount t = settleCount t + 1) := by
  intro t c h
  induction h with
  | nil => exact ⟨fun _ => rfl, fun j hj => Option.noConfusion hj⟩
  | start t j htr ih =>
    refine ⟨fun hj => Option.noConfusion hj, fun k _ => ?_⟩
    rw [startCount_append, settleCount_append]
    have heq := ih.1 rfl
    show startCount t + 1 = settleCount t + 0 + 1
    omega
  | finish t j ok htr ih =>
    refine ⟨fun _ => ?_, fun k hk => Option.noConfusion hk⟩
    rw [startCount_append, settleCount_append]
    have heq := ih.2 j rfl
    show startCount t + 0 = settleCount t + 1
    omega

theorem append_eq_concat {α : Type} {p q t : List α} {x : α}
    (h : p ++ q = t ++ [x]) :
    (p = t ++ [x] ∧ q = []) ∨ ∃ q', q = q' ++ [x] ∧ p ++ q' = t := by
  cases List.eq_nil_or_concat q with
  | inl hq =>
    subst hq
    left
    exact ⟨by simpa using h, rfl⟩
  | inr hq =>
    obtain ⟨q', a, hq⟩ := hq
    subst hq
    right
    rw [List.concat_eq_append, ← List.append_assoc] at h
    obtain ⟨h3, h4⟩ := List.append_inj' h rfl
    injection h4 with h5 _
    subst h5
    exact ⟨q', by rw [List.concat_eq_append], h3⟩

theorem okTrace_init_bound :
    ∀ {t : List QEv} {c : Option Job}, OkTrace t c →
      ∀ p, isInit p t → startCount p ≤ settleCount p + 1 := by
  intro t c h
  induction h with
  | nil =>
    intro p hp
    obtain ⟨q, hq⟩ := hp
    have hpnil : p = [] := by
      cases p with
      | nil => rfl
      | cons a b => cases hq
    subst hpnil
    simp [startCount, settleCount]
  | start t j htr ih =>
    intro p hp
    obtain ⟨q, hq⟩ := hp
    rcases append_eq_concat hq with ⟨hpeq, _⟩ | ⟨q', _, hq2⟩
    · subst hpeq
      rw [startCount_append, settleCount_append]
      have hcnt := (okTrace_counts htr).1 rfl
      show startCount t + 1 ≤ settleCount t + 0 + 1
      omega
    · exact ih p ⟨q', hq2⟩
  | finish t j ok htr ih =>
    intro p hp
    obtain ⟨q, hq⟩ := hp
    rcases append_eq_concat hq with ⟨hpeq, _⟩ | ⟨q', _, hq2⟩
    · subst hpeq
      rw [startCount_append, settleCount_append]
      have hcnt := (okTrace_counts htr).2 j rfl
      show startCount t + 0 ≤ settleCount t + 1 + 1
      omega
    · exact ih p ⟨q', hq2⟩

/-- Claim C7: the queue serializes its jobs.  For every sequence of arrivals
and settlements: the event trace is an alternation of matching start/settle
pairs with at most one open start (`OkTrace`) — so in every initial segment
of the trace at most one more task has started than has settled, i.e. at
most one task function is executing at any instant; tasks start in exactly
enqueue order (the started ids are always an initial segment of the
enqueued ids); and a failing job does not block the next one — demonstrated
by a run where job 1 rejects and job 2 still starts and settles. -/
theorem claim7_queue_serialization :
    (∀ ops : List QOp, OkTrace (runOps ops).trace (runOps ops).current) ∧
    (∀ (ops : List QOp) (p : List QEv), isInit p (runOps ops).trace →
      startCount p ≤ settleCount p + 1) ∧
    (∀ ops : List QOp, ∃ waiting : List Nat,
      startedIds (runOps ops).trace ++ waiting = enqIds ops) ∧
    (runOps [QOp.enq { id := 1, fails := true },
             QOp.enq { id := 2, fails := false },
             QOp.settle, QOp.settle]).trace =
      [QEv.start 1, QEv.settle 1 false, QEv.start 2, QEv.settle 2 true] := by
  refine ⟨?_, ?_, ?_, ?_⟩
  · intro ops
    exact (qinv_main ops).1
  · intro ops p hp
    exact okTrace_init_bound (qinv_main ops).1 p hp
  · intro ops
    exact ⟨(runOps ops).requestQueue.map Job.id, (qinv_main ops).2.2.2⟩
  · decide

/-- Witness for claim C7 at a concrete input: one enqueued job that starts
immediately; the one-event initial segment of its trace satisfies the
at-most-one-running bound. -/
theorem claim7_witness :
    isInit [QEv.start 1]
      (runOps [QOp.enq { id := 1, fails := false }, QOp.settle]).trace ∧
    startCount [QEv.start 1] ≤ settleCount [QEv.start 1] + 1 :=
  ⟨⟨[QEv.settle 1 true], by decide⟩,
   claim7_queue_serialization.2.1
     [QOp.enq { id := 1, fails := false }, QOp.settle] [QEv.start 1]
     ⟨[QEv.settle 1 true], by decide⟩⟩

/-! Submission failure and cleanup. -/

theorem any_usable_false (els : List Target)
    (h : ∀ t ∈ els, usable t = false) : els.any usable = false := by
  induction els with
  | nil => rfl
  | cons t rest ih =>
    show (usable t || rest.any usable) = false
    rw [h t (List.mem_cons_self t rest),
        ih (fun x hx => h x (List.mem_cons_of_mem t hx))]
    rfl

theorem submitQuery_false (cands : List (List Target))
    (h : ∀ els ∈ cands, ∀ t ∈ els, usable t = false) :
    submitQuery cands = false := by
  induction cands with
  | nil => rfl
  | cons els rest ih =>
    have ih2 : (rest.any fun e => e.any usable) = false :=
      ih (fun x hx t ht => h x (List.mem_cons_of_mem els hx) t ht)
    show (els.any usable || rest.any fun e => e.any usable) = false
    rw [any_usable_false els (h els (List.mem_cons_self els rest)), ih2]
    rfl

/-- Claim C8: when every candidate submission target is reported unusable
(display none, visibility hidden, or zero-sized), `submitQuery` exhausts all
candidates and returns false without throwing, and the engine then settles
with the submission-failure rejection before the Convergence Detector runs:
the outcome is `submitFailed` and not a single delta is emitted, whatever
samples the loop would have seen. -/
theorem claim8_submit_failure :
    (∀ cands : List (List Target),
      (∀ els ∈ cands, ∀ t ∈ els, usable t = false) →
      submitQuery cands = false) ∧
    (∀ (cfg : Config) (hc : Bool) (samples : List (Option Extraction))
       (cands : List (List Target)),
      (∀ els ∈ cands, ∀ t ∈ els, usable t = false) →
      runQueryFull cfg (submitQuery cands) hc samples =
        (Outcome.submitFailed, [])) := by
  refine ⟨submitQuery_false, ?_⟩
  intro cfg hc samples cands h
  rw [submitQuery_false cands h]
  rfl

/-- Witness for claim C8 at a concrete input: one selector matching one
hidden, zero-sized element. -/
theorem claim8_witness :
    (∀ els ∈ [[({ displayNone := true, visibilityHidden := true,
                  width := 0, height := 0 } : Target)]],
      ∀ t ∈ els, usable t = false) ∧
    runQueryFull pplxCfg
      (submitQuery [[{ displayNone := true, visibilityHidden := true,
                       width := 0, height := 0 }]]) true [] =
      (Outcome.submitFailed, []) :=
  ⟨by decide,
   claim8_submit_failure.2 pplxCfg true []
     [[{ displayNone := true, visibilityHidden := true, width := 0, height := 0 }]]
     (by decide)⟩

theorem countP_emit_map (p : SlotEvent → Bool)
    (he : ∀ d, p (SlotEvent.emit d) = false) (l : List String) :
    (l.map SlotEvent.emit).countP p = 0 := by
  induction l with
  | nil => rfl
  | cons d rest ih =>
    rw [List.map_cons, List.countP_cons, he, ih]
    rfl

/-- Claim C9: on every exit path — stable success, timeout with retained
text, no-answer failure, submission failure, a throwing poll, or a throwing
navigation — the execution's event trace releases the Observation Source
exactly once, after every emitted delta and immediately before the
settlement of the execution's promise, which is the final event.  (The
unconditional position of the release embeds the `finally` clause of the
source, whose own close errors are swallowed.) -/
theorem claim9_cleanup :
    ∀ (cfg : Config) (navOk submitted : Bool)
      (samples : List (Option Extraction)),
      ∃ (front : List SlotEvent) (o : Outcome),
        queryEvents cfg navOk submitted samples =
          front ++ [SlotEvent.release, SlotEvent.settle o] ∧
        front.countP isRelease = 0 ∧
        front.countP isSettle = 0 := by
  intro cfg navOk submitted samples
  refine ⟨SlotEvent.acquire ::
      ((if navOk = false then (Outcome.navThrew, ([] : List String))
        else runQueryFull cfg submitted true samples).2.map SlotEvent.emit),
    (if navOk = false then (Outcome.navThrew, ([] : List String))
      else runQueryFull cfg submitted true samples).1, rfl, ?_, ?_⟩
  · rw [List.countP_cons, countP_emit_map isRelease (fun _ => rfl)]
    rfl
  · rw [List.countP_cons, countP_emit_map isSettle (fun _ => rfl)]
    rfl

/-- Running the loop over samples that all fail the length guard leaves the
state untouched: `lastText` stays empty, so the Gemini fallback can never
fire either. -/
theorem runLoop_all_short (cfg : Config) (hc : Bool) :
    ∀ (l : List Extraction),
      (∀ e ∈ l, e.answerText.length ≤ cfg.guardLen) →
      runLoop cfg hc initS (l.map some) = LoopRes.cont initS := by
  have key : ∀ (l : List Extraction) (s : PollState), s.lastText = "" →
      (∀ e ∈ l, e.answerText.length ≤ cfg.guardLen) →
      runLoop cfg hc s (l.map some) = LoopRes.cont s := by
    intro l
    induction l with
    | nil => intro s _ _; rfl
    | cons e l ih =>
      intro s hs hall
      have hg : ¬ cfg.guardLen < e.answerText.length :=
        Nat.not_lt.mpr (hall e (List.mem_cons_self e l))
      have hfb : ¬ (cfg.fallbackOnModelResponse = true ∧
          e.modelResponseExists = true ∧ s.lastText ≠ "") := by
        rintro ⟨_, _, hne⟩
        exact hne hs
      rw [List.map_cons, runLoop_cons, step_skip cfg hc s e hg hfb]
      exact ih s hs (fun x hx => hall x (List.mem_cons_of_mem e hx))
  intro l h
  exact key l initS rfl h

/-- Claim C10: a sample whose text is empty (Perplexity) or no longer than
10 characters (Gemini) is ignored by the loop body: the Perplexity step
leaves the state exactly unchanged; the Gemini step either leaves the state
exactly unchanged or — when `model-response` is present and a text is
already retained — returns that previously retained text, in every case
emitting no delta and touching neither `stableCount` nor `lastText`.
Consequently an execution all of whose samples are that short ends with the
no-answer timeout error and no emitted delta, even when the text is
identical on every poll and the busy signal is false throughout. -/
theorem claim10_short_text_ignored :
    (∀ (hc : Bool) (s : PollState) (e : Extraction), e.answerText = "" →
      step pplxCfg hc s e = Sum.inl s) ∧
    (∀ (hc : Bool) (s : PollState) (e : Extraction), e.answerText.length ≤ 10 →
      step geminiCfg hc s e = Sum.inl s ∨
      step geminiCfg hc s e =
        Sum.inr (s, { answer := s.lastText, sources := [] })) ∧
    (∀ l : List Extraction, (∀ e ∈ l, e.answerText = "") →
      runQueryFull pplxCfg true true (l.map some) = (Outcome.noAnswer, [])) ∧
    (∀ l : List Extraction, (∀ e ∈ l, e.answerText.length ≤ 10) →
      runQueryFull geminiCfg true true (l.map some) = (Outcome.noAnswer, [])) := by
  have hshort : ∀ (cfg : Config) (l : List Extraction),
      (∀ e ∈ l, e.answerText.length ≤ cfg.guardLen) →
      runQueryFull cfg true true (l.map some) = (Outcome.noAnswer, []) := by
    intro cfg l h
    rw [runQueryFull_cont cfg true (l.map some) initS (runLoop_all_short cfg true l h),
        if_neg (by decide)]
    rfl
  refine ⟨?_, ?_, ?_, ?_⟩
  · intro hc s e he
    apply step_skip
    · rw [he]
      decide
    · rintro ⟨hf, _, _⟩
      exact Bool.noConfusion hf
  · intro hc s e hlen
    have hg : ¬ geminiCfg.guardLen < e.answerText.length := Nat.not_lt.mpr hlen
    by_cases hfb : geminiCfg.fallbackOnModelResponse = true ∧
        e.modelResponseExists = true ∧ s.lastText ≠ ""
    · right
      exact step_fallback_exit geminiCfg hc s e hg hfb
    · left
      exact step_skip geminiCfg hc s e hg hfb
  · intro l h
    exact hshort pplxCfg l (fun e he => by rw [h e he]; decide)
  · intro l h
    exact hshort geminiCfg l h

/-- Witness for claim C10 at concrete inputs: an empty-text sample leaves
the Perplexity step's state unchanged, and a Gemini execution observing
only the four-character text goes to the no-answer error. -/
theorem claim10_witness :
    (mkE "" true).answerText = "" ∧
    step pplxCfg true initS (mkE "" true) = Sum.inl initS ∧
    runQueryFull geminiCfg true true ([mkE "tiny" false].map some) =
      (Outcome.noAnswer, []) :=
  ⟨rfl,
   claim10_short_text_ignored.1 true initS (mkE "" true) rfl,
   claim10_short_text_ignored.2.2.2 [mkE "tiny" false]
     (fun e he => by rw [List.mem_singleton.mp he]; decide)⟩

end LlmApiHack
